import Mathlib

/-!
Verification of the lazy document-store catalog
(`bluesky_catalog/mongo_normalized.py` and `tiled/client/base.py`).

The document store itself is an external collaborator; it is modelled
from the spec's interface contract (section 6): `find(filter, sort,
skip, limit)` returns the matching documents in ascending `_id` order,
`count_documents` returns the exact match count.  Everything else is a
direct shallow embedding of the Python source.
-/

namespace Tiled

/-- A document held by a store collection: the store-assigned,
strictly-increasing identifier `_id` plus the rest of the document
(the payload, which is what remains after `_id` is stripped). -/
structure Doc (α : Type) where
  id : Nat
  payload : α
  deriving Repr, DecidableEq

/-- Modelled from the spec: the Document Store Collection collaborator's
`collection.find(query).sort(("_id", 1)).skip(skip).limit(lim)` chain used by
`Catalog._chunked_find`.  The collection is kept in ascending `_id` order
(the store assigns strictly increasing identifiers), so sorting by `_id`
is the identity and `find` is filter-then-skip-then-limit. -/
def findSorted {α : Type} (coll : List (Doc α)) (q : Doc α → Bool)
    (skip lim : Nat) : List (Doc α) :=
  (((coll.filter q).drop skip).take lim)

/-- Modelled from the spec: `collection.count_documents(query)` returns the
exact number of documents matching the query. -/
def count_documents {α : Type} (coll : List (Doc α)) (q : Doc α → Bool) : Nat :=
  (coll.filter q).length

/-- The internal batch size of `Catalog._chunked_find`. -/
def CURSOR_LIMIT : Nat := 100

/-- The query used from the second pagination round on: the caller's filter
AND an `_id` lower bound (the source sets a top-level key via
`query["_id"] = ("$gt", last_object_id)`; the queries reaching
`_chunked_find` are built by `_mongo_query` and never carry a top-level
`_id` key of their own, so this is conjunction). -/
def gtFilter {α : Type} (q : Doc α → Bool) (lastId : Nat) : Doc α → Bool :=
  fun d => q d && decide (lastId < d.id)

/-- The `while True` loop of `Catalog._chunked_find`, as a fuel-indexed
recursion.  `items` is the batch just pulled from the cursor, `tally` the
number of documents yielded so far.  Each non-empty round yields the batch
payloads (with `_id` stripped), then either stops (empty batch, or the
limit is reached exactly) or fetches the next batch starting strictly
after the last `_id` seen. -/
def chunkedRounds {α : Type} (coll : List (Doc α)) (q : Doc α → Bool)
    (limit : Option Nat) : Nat → List (Doc α) → Nat → List α
  | 0, _, _ => []
  | fuel + 1, items, tally =>
    if items.isEmpty then []
    else
      let lastId := ((items.getLast?).map Doc.id).getD 0
      let yielded := items.map Doc.payload
      let tally' := tally + items.length
      match limit with
      | some l =>
          if tally' = l then yielded
          else
            let thisLimit := if l - tally' < CURSOR_LIMIT then l - tally' else CURSOR_LIMIT
            yielded ++
              chunkedRounds coll q limit fuel
                (findSorted coll (gtFilter q lastId) 0 thisLimit) tally'
      | none =>
          yielded ++
            chunkedRounds coll q limit fuel
              (findSorted coll (gtFilter q lastId) 0 CURSOR_LIMIT) tally'

/-- The generator `Catalog._chunked_find(collection, query, skip=skip, limit=limit)`,
drained to a list.  The first round applies the store-level `skip` and an
initial limit of `min(limit, CURSOR_LIMIT)`; later rounds restart from the
last `_id` seen with no skip.  `coll.length + 1` fuel is enough for the
loop to run to completion, since every round before the last consumes at
least one document of the collection. -/
def _chunked_find {α : Type} (coll : List (Doc α)) (q : Doc α → Bool)
    (skip : Nat) (limit : Option Nat) : List α :=
  let initialLimit :=
    match limit with
    | some l => if l < CURSOR_LIMIT then l else CURSOR_LIMIT
    | none => CURSOR_LIMIT
  chunkedRounds coll q limit (coll.length + 1) (findSorted coll q skip initialLimit) 0

/-! Helper lemmas for the pagination proof. -/

/-- In a list with strictly ascending ids, every element's id is bounded by
the last element's id. -/
theorem id_le_getLast_id {α : Type} :
    ∀ (pre : List (Doc α)), pre.Pairwise (fun a b => a.id < b.id) →
      ∀ x, pre.getLast? = some x → ∀ a ∈ pre, a.id ≤ x.id := by
  intro pre
  induction pre with
  | nil => intro _ x hx a ha; cases ha
  | cons h t ih =>
    intro hp x hx a ha
    rcases List.pairwise_cons.mp hp with ⟨hhead, htail⟩
    cases t with
    | nil =>
      have hxh : x = h := by simpa using hx.symm
      have hah : a = h := by simpa using ha
      simp [hxh, hah]
    | cons b t' =>
      have hx' : (b :: t').getLast? = some x := by
        simpa [List.getLast?_cons_cons] using hx
      rcases List.mem_cons.mp ha with hah | hat
      · rcases List.mem_getLast?_eq_getLast (l := b :: t') (x := x) hx' with ⟨hne, hxe⟩
        have hxmem : x ∈ b :: t' := hxe ▸ List.getLast_mem hne
        have := hhead x hxmem
        subst hah
        omega
      · exact ih htail x hx' a hat

/-- Splitting a strictly-ascending list as `pre ++ suf` with `x` the last
element of `pre`, the elements whose id exceeds `x.id` are exactly `suf`. -/
theorem filter_gt_eq_suffix {α : Type} (pre suf : List (Doc α)) (x : Doc α)
    (hp : (pre ++ suf).Pairwise (fun a b => a.id < b.id))
    (hx : pre.getLast? = some x) :
    (pre ++ suf).filter (fun d => decide (x.id < d.id)) = suf := by
  rcases List.pairwise_append.mp hp with ⟨hpre, _, hcross⟩
  rw [List.filter_append]
  have hxmem : x ∈ pre := by
    rcases List.mem_getLast?_eq_getLast (l := pre) (x := x) hx with ⟨hne, hxe⟩
    exact hxe ▸ List.getLast_mem hne
  have h1 : pre.filter (fun d => decide (x.id < d.id)) = [] := by
    rw [List.filter_eq_nil_iff]
    intro a ha
    have := id_le_getLast_id pre hpre x hx a ha
    simpa using Nat.not_lt.mpr this
  have h2 : suf.filter (fun d => decide (x.id < d.id)) = suf := by
    rw [List.filter_eq_self]
    intro b hb
    simpa using hcross x hxmem b hb
  rw [h1, h2, List.nil_append]

/-- A batch `s.take r` followed by the rest of `s`. -/
theorem take_append_drop_length {β : Type} (s : List β) (r : Nat) :
    s.take r ++ s.drop ((s.take r).length) = s := by
  rw [List.length_take]
  rcases Nat.le_total r s.length with h | h
  · rw [Nat.min_eq_left h, List.take_append_drop]
  · rw [Nat.min_eq_right h, List.drop_length, List.take_of_length_le h, List.append_nil]

/-- Taking as many elements as a batch `s.take r` holds gives back the batch. -/
theorem take_length_take {β : Type} (s : List β) (r : Nat) :
    s.take ((s.take r).length) = s.take r := by
  rw [List.length_take]
  rcases Nat.le_total r s.length with h | h
  · rw [Nat.min_eq_left h]
  · rw [Nat.min_eq_right h, List.take_length, List.take_of_length_le h]

/-- The next pagination round: querying with `filter AND id > lastId`, where
`lastId` is the id of the last document of the current batch, returns exactly
the documents that follow the batch in the filtered collection. -/
theorem findSorted_next_batch {α : Type} (coll : List (Doc α)) (q : Doc α → Bool)
    (hs : (coll.filter q).Pairwise (fun a b => a.id < b.id))
    (k r lim : Nat) (x : Doc α)
    (hx : (((coll.filter q).drop k).take r).getLast? = some x) :
    findSorted coll (gtFilter q x.id) 0 lim =
      ((coll.filter q).drop
        (k + (((coll.filter q).drop k).take r).length)).take lim := by
  have hff : (coll.filter q).filter (fun d => decide (x.id < d.id)) =
      coll.filter (gtFilter q x.id) := by
    rw [List.filter_filter]
    apply List.filter_congr
    intro a _
    simp [gtFilter, Bool.and_comm]
  have hitems_ne : ((coll.filter q).drop k).take r ≠ [] := by
    intro hnil
    rw [hnil] at hx
    simp at hx
  have hpre : (coll.filter q).take (k + (((coll.filter q).drop k).take r).length) =
      (coll.filter q).take k ++ ((coll.filter q).drop k).take r := by
    rw [List.take_add]
    congr 1
    exact take_length_take ((coll.filter q).drop k) r
  have hprelast : ((coll.filter q).take
      (k + (((coll.filter q).drop k).take r).length)).getLast? = some x := by
    rw [hpre, List.getLast?_append_of_ne_nil _ hitems_ne, hx]
  have hsplit := filter_gt_eq_suffix
    ((coll.filter q).take (k + (((coll.filter q).drop k).take r).length))
    ((coll.filter q).drop (k + (((coll.filter q).drop k).take r).length)) x
    (by rw [List.take_append_drop]; exact hs) hprelast
  rw [List.take_append_drop] at hsplit
  show ((coll.filter (gtFilter q x.id)).drop 0).take lim = _
  rw [List.drop_zero, ← hff, hsplit]

/-- Loop invariant of `_chunked_find`: entering a round with the batch
`(matches.drop k).take r`, tally `tally`, and the round limit `r` the source
would have used (`CURSOR_LIMIT`, or `min (limit - tally) CURSOR_LIMIT`),
draining the remaining rounds yields exactly the remaining matching payloads
(all of them, or the next `limit - tally` of them). -/
theorem chunkedRounds_eq {α : Type} (coll : List (Doc α)) (q : Doc α → Bool)
    (hs : (coll.filter q).Pairwise (fun a b => a.id < b.id)) :
    ∀ (fuel : Nat) (limit : Option Nat) (k tally r : Nat),
      (coll.filter q).length - k < fuel →
      (limit = none → r = CURSOR_LIMIT) →
      (∀ l, limit = some l → tally ≤ l ∧ r = min (l - tally) CURSOR_LIMIT) →
      chunkedRounds coll q limit fuel (((coll.filter q).drop k).take r) tally =
        (match limit with
         | none => ((coll.filter q).drop k).map Doc.payload
         | some l =>
             (((coll.filter q).drop k).take (l - tally)).map Doc.payload) := by
  intro fuel
  induction fuel with
  | zero => intro limit k tally r hfuel _ _; omega
  | succ fuel ih =>
    intro limit k tally r hfuel hnone hsome
    by_cases hempty : ((coll.filter q).drop k).take r = []
    · rw [chunkedRounds, hempty]
      simp only [List.isEmpty_nil, if_true]
      rcases List.take_eq_nil_iff.mp hempty with hr0 | hdrop
      · cases limit with
        | none =>
          have := hnone rfl
          rw [this] at hr0
          simp [CURSOR_LIMIT] at hr0
        | some l =>
          rcases hsome l rfl with ⟨htally, hr⟩
          have hl : l - tally = 0 := by
            rw [hr0] at hr
            simp [CURSOR_LIMIT] at hr
            omega
          simp [hl]
      · cases limit <;> simp [hdrop]
    · -- non-empty batch
      have hxex := List.getLast?_eq_getLast_of_ne_nil hempty
      set x := (((coll.filter q).drop k).take r).getLast hempty with hxdef
      set n := (((coll.filter q).drop k).take r).length with hndef
      have hn1 : 1 ≤ n := by
        rw [hndef]
        exact List.length_pos.mpr hempty
      have hklt : k < (coll.filter q).length := by
        by_contra hk
        exact hempty (List.take_eq_nil_of_eq_nil
          (List.drop_eq_nil_of_le (Nat.le_of_not_lt hk)))
      have hnr : n ≤ r := by
        rw [hndef, List.length_take]
        exact Nat.min_le_left _ _
      have hrest : ((coll.filter q).drop k).drop n = (coll.filter q).drop (k + n) := by
        rw [List.drop_drop]
      have hrecombine : (((coll.filter q).drop k).take r) ++ (coll.filter q).drop (k + n) =
          (coll.filter q).drop k := by
        rw [← hrest, hndef]
        exact take_append_drop_length _ _
      have hnext := fun lim => findSorted_next_batch coll q hs k r lim x hxex
      rw [← hndef] at hnext
      have hfuel' : (coll.filter q).length - (k + n) < fuel := by omega
      rw [chunkedRounds]
      rw [if_neg (by simpa [List.isEmpty_iff] using hempty)]
      simp only [hxex, Option.map_some', Option.getD_some]
      rw [← hndef]
      cases limit with
      | none =>
        dsimp only
        rw [hnext CURSOR_LIMIT]
        have hrec := ih none (k + n) (tally + n) CURSOR_LIMIT hfuel' (fun _ => rfl)
          (by intro l hl; cases hl)
        dsimp only at hrec
        rw [hrec, ← List.map_append, hrecombine]
      | some l =>
        dsimp only
        rcases hsome l rfl with ⟨htally, hr⟩
        have hrl : r ≤ l - tally := hr ▸ Nat.min_le_left _ _
        have htn : tally + n ≤ l := by omega
        by_cases hdone : tally + n = l
        · rw [if_pos hdone]
          have hlt : l - tally = n := by omega
          rw [hlt, hndef, take_length_take]
        · rw [if_neg hdone]
          have hlim : (if l - (tally + n) < CURSOR_LIMIT then l - (tally + n)
              else CURSOR_LIMIT) = min (l - (tally + n)) CURSOR_LIMIT := by
            split <;> omega
          rw [hlim, hnext (min (l - (tally + n)) CURSOR_LIMIT)]
          have hrec := ih (some l) (k + n) (tally + n)
            (min (l - (tally + n)) CURSOR_LIMIT) hfuel' (by intro h; cases h)
            (by intro l' hl'; cases hl'; exact ⟨htn, rfl⟩)
          dsimp only at hrec
          rw [hrec]
          have hsum : l - tally = n + (l - (tally + n)) := by omega
          rw [hsum, List.take_add, List.map_append, hrest, hndef, take_length_take]

/-- Draining `_chunked_find` yields exactly the matching payloads, in
collection (ascending `_id`) order, after `skip` of them and up to `limit`
of them. -/
theorem chunked_find_eq {α : Type} (coll : List (Doc α)) (q : Doc α → Bool)
    (skip : Nat) (limit : Option Nat)
    (hs : coll.Pairwise (fun a b => a.id < b.id)) :
    _chunked_find coll q skip limit =
      match limit with
      | none => ((coll.filter q).map Doc.payload).drop skip
      | some l => (((coll.filter q).map Doc.payload).drop skip).take l := by
  have hsf : (coll.filter q).Pairwise (fun a b => a.id < b.id) :=
    List.Pairwise.sublist (List.filter_sublist coll) hs
  have hlen : (coll.filter q).length ≤ coll.length :=
    (List.filter_sublist coll).length_le
  cases limit with
  | none =>
    have h := chunkedRounds_eq coll q hsf (coll.length + 1) none skip 0 CURSOR_LIMIT
      (by omega) (fun _ => rfl) (by intro l hl; cases hl)
    dsimp only at h
    show chunkedRounds coll q none (coll.length + 1)
      (((coll.filter q).drop skip).take CURSOR_LIMIT) 0 = _
    rw [h, List.map_drop]
  | some l =>
    have hr : (if l < CURSOR_LIMIT then l else CURSOR_LIMIT) =
        min (l - 0) CURSOR_LIMIT := by
      split <;> omega
    have h := chunkedRounds_eq coll q hsf (coll.length + 1) (some l) skip 0
      (min (l - 0) CURSOR_LIMIT) (by omega) (by intro hc; cases hc)
      (by intro l' hl'; cases hl'; exact ⟨Nat.zero_le _, rfl⟩)
    dsimp only at h
    show chunkedRounds coll q (some l) (coll.length + 1)
      (((coll.filter q).drop skip).take (if l < CURSOR_LIMIT then l else CURSOR_LIMIT)) 0 = _
    rw [hr, h, Nat.sub_zero, List.map_take, List.map_drop]

/-- C1: for every collection of documents with distinct, strictly ascending
`_id` values, every filter, every skip, and every limit (or no limit),
exhaustively draining the chunked pagination generator `_chunked_find`
yields exactly the matching documents in ascending `_id` order — each
matching document exactly once, with no duplicates and no omissions, up to
`limit` of them starting after `skip` — and every yielded document is its
payload with the `_id` field stripped.  (The right-hand side is the list of
the stripped matching documents in collection order, with `skip` dropped
and at most `limit` taken, so it is duplicate-free and omission-free by
construction.) -/
theorem chunked_find_paginates_correctly {α : Type} (coll : List (Doc α))
    (q : Doc α → Bool) (skip : Nat) (limit : Option Nat)
    (hs : coll.Pairwise (fun a b => a.id < b.id)) :
    _chunked_find coll q skip limit =
      match limit with
      | none => ((coll.filter q).map Doc.payload).drop skip
      | some l => (((coll.filter q).map Doc.payload).drop skip).take l :=
  chunked_find_eq coll q skip limit hs

/-- Witness for C1: a concrete ascending collection, skip 1, limit 2. -/
theorem chunked_find_paginates_correctly_witness :
    (([⟨1, 10⟩, ⟨2, 11⟩, ⟨3, 12⟩, ⟨5, 13⟩] : List (Doc Nat)).Pairwise
      (fun a b => a.id < b.id)) ∧
    _chunked_find ([⟨1, 10⟩, ⟨2, 11⟩, ⟨3, 12⟩, ⟨5, 13⟩] : List (Doc Nat))
      (fun d => d.payload % 2 = 1) 1 (some 2) = [13] :=
  ⟨by decide,
   (chunked_find_paginates_correctly _ _ 1 (some 2) (by decide)).trans (by decide)⟩

/-! ### The Catalog: queries, access policies, view transformations -/

/-- A `run_start` document's caller-visible content: the run uid plus the
text-indexed terms the store's full-text index holds for it (a model of
the external text index consulted by a `$text` predicate). -/
structure RunStart where
  uid : String
  textIndex : List String
  deriving Repr, DecidableEq

/-- Store-native predicates produced by the registered query translators:
the `$text` search of `full_text_search`, the top-level `$uid` key of
`key_lookup`, the `uid` equality used by `__getitem__`, and the
`uid $in` restriction appended by `SimpleAccessPolicy`. -/
inductive MongoPred where
  | textSearch (s : String)
  | uidKeyLookup (u : String)
  | uidEq (u : String)
  | uidIn (us : List String)
  deriving Repr, DecidableEq

/-- Modelled from the spec: the document store's (external collaborator)
evaluation of a store-native predicate against a `run_start` document. -/
def MongoPred.matches : MongoPred → RunStart → Bool
  | .textSearch s, d => d.textIndex.contains s
  | .uidKeyLookup u, d => d.uid == u
  | .uidEq u, d => d.uid == u
  | .uidIn us, d => us.contains d.uid

/-- The value returned by `Catalog._mongo_query`: the empty query
(match everything) or a `$and` of predicates. -/
inductive MongoFilter where
  | empty
  | andList (ps : List MongoPred)
  deriving Repr, DecidableEq

/-- Modelled from the spec: the store evaluates the empty query as
match-everything and `$and` as conjunction. -/
def MongoFilter.matches : MongoFilter → RunStart → Bool
  | .empty, _ => true
  | .andList ps, d => ps.all (fun p => p.matches d)

/-- High-level query intents: the closed variant set registered with the
Catalog's `QueryTranslationRegistry` (`FullText`, `KeyLookup`,
`RawMongo`). -/
inductive Query where
  | fullText (text : String)
  | keyLookup (uid : String)
  | rawMongo (start : MongoPred)
  deriving Repr, DecidableEq

/-- The registered translators: `full_text_search` and `key_lookup` each
rewrite to a `RawMongo` query whose own translator `raw_mongo` returns
its `start` predicate. -/
def translateQuery : Query → MongoPred
  | .fullText t => .textSearch t
  | .keyLookup u => .uidKeyLookup u
  | .rawMongo p => p

/-- An authenticated identity: the administrative sentinel
`SpecialUsers.admin`, or a named user. -/
inductive Identity where
  | admin
  | user (name : String)
  deriving Repr, DecidableEq

/-- A value of `SimpleAccessPolicy.access_lists`: the `ALL` sentinel or a
list of allowed entries. -/
inductive AccessList where
  | all
  | uids (us : List String)
  deriving Repr, DecidableEq

/-- The two access-policy variants of the source: `DummyAccessPolicy`
(no restriction) and `SimpleAccessPolicy` (a mapping from user names to
the entries they may access). -/
inductive AccessPolicy where
  | dummy
  | simple (access_lists : List (String × AccessList))
  deriving Repr, DecidableEq

/-- The lookup `self.access_lists.get(authenticated_identity, [])`: the
administrative sentinel is an enum member and never a string key of the
mapping, so it — like an unknown user and like a null identity — gets the
default empty list. -/
def lookupAccess (lists : List (String × AccessList)) :
    Option Identity → AccessList
  | some (.user n) =>
      ((lists.find? (fun kv => kv.fst == n)).map Prod.snd).getD (.uids [])
  | _ => .uids []

/-- The operation `modify_queries(queries, authenticated_identity)` of the two policy
variants.  `SimpleAccessPolicy` returns the queries unchanged for the
administrative identity or an `ALL` allow-list, and otherwise appends
`RawMongo` with a `uid $in allowed` restriction. -/
def AccessPolicy.modify_queries :
    AccessPolicy → List Query → Option Identity → List Query
  | .dummy, qs, _ => qs
  | .simple lists, qs, ident =>
      match lookupAccess lists ident with
      | .all => qs
      | .uids allowed =>
          if ident = some Identity.admin then qs
          else qs ++ [.rawMongo (.uidIn allowed)]

/-- The Catalog's own state: immutable handles to the two databases (the
handles are opaque, modelled as numbers), its metadata, the active
high-level query intents, the optional access policy, and the identity it
is bound to.  The derived `_mongo_queries` value is
`Catalog.mongo_queries` below. -/
structure Catalog where
  metadatastore_db : Nat
  asset_registry_db : Nat
  metadata : List (String × String)
  queries : List Query
  access_policy : Option AccessPolicy
  authenticated_identity : Option Identity
  deriving Repr, DecidableEq

/-- The check `check_compatibility`: both policy variants answer
`isinstance(catalog, Catalog)`, which holds of every Catalog value. -/
def AccessPolicy.check_compatibility (_p : AccessPolicy) (_c : Catalog) : Bool :=
  true

inductive CatalogError where
  | incompatiblePolicy
  | alreadyAuthenticated
  | notImplemented
  | keyError (key : String)
  deriving Repr, DecidableEq

/-- The constructor `Catalog.__init__`: stores the handles and fields; raises ValueError
when a supplied access policy reports itself incompatible. -/
def Catalog.make (metadatastore_db asset_registry_db : Nat)
    (metadata : List (String × String)) (queries : List Query)
    (access_policy : Option AccessPolicy)
    (authenticated_identity : Option Identity) : Except CatalogError Catalog :=
  let c : Catalog :=
    { metadatastore_db := metadatastore_db
      asset_registry_db := asset_registry_db
      metadata := metadata
      queries := queries
      access_policy := access_policy
      authenticated_identity := authenticated_identity }
  match access_policy with
  | some p => if p.check_compatibility c then .ok c else .error .incompatiblePolicy
  | none => .ok c

/-- The derived value `self._mongo_queries = [self.query_registry(q) for q in queries]`. -/
def Catalog.mongo_queries (c : Catalog) : List MongoPred :=
  c.queries.map translateQuery

/-- The combiner `Catalog._mongo_query(*queries)`: the AND of the translated stored
queries and the extra per-call predicates; when the combined list is
empty, the empty (match everything) query. -/
def Catalog._mongo_query (c : Catalog) (extra : List MongoPred) : MongoFilter :=
  let combined := c.mongo_queries ++ extra
  if combined.isEmpty then .empty else .andList combined

/-- The transformation `Catalog.search(query)`: a new Catalog with the query appended to the
active intent tuple and every other field carried over. -/
def Catalog.search (c : Catalog) (query : Query) : Except CatalogError Catalog :=
  Catalog.make c.metadatastore_db c.asset_registry_db c.metadata
    (c.queries ++ [query]) c.access_policy c.authenticated_identity

/-- The rebinding `Catalog.authenticated_as(identity)`.  Note: the source passes
`authenticated_identity=self.authenticated_identity` — not the `identity`
argument — when constructing the new Catalog, and raises
NotImplementedError when an access policy is present. -/
def Catalog.authenticated_as (c : Catalog) (identity : Identity) :
    Except CatalogError Catalog :=
  if c.authenticated_identity.isSome then .error .alreadyAuthenticated
  else
    match c.access_policy with
    | some _ => .error .notImplemented
    | none =>
        Catalog.make c.metadatastore_db c.asset_registry_db c.metadata
          c.queries c.access_policy c.authenticated_identity

/-- Modelled from the spec: the `authenticated` decorator (defined in
`catalog_server.utils`, outside these sources) gates every read
operation: before translation, `AccessPolicy.modify_queries` is applied
to the stored intents and the current identity, giving the effective
intent list used for that one call. -/
def Catalog.effective_queries (c : Catalog) : List Query :=
  match c.access_policy with
  | none => c.queries
  | some p => p.modify_queries c.queries c.authenticated_identity

/-- The effective store filter of a gated read: the translated effective
intents plus any per-call predicates, combined as `_mongo_query`
combines them. -/
def Catalog.effective_mongo_query (c : Catalog) (extra : List MongoPred) :
    MongoFilter :=
  let combined := c.effective_queries.map translateQuery ++ extra
  if combined.isEmpty then .empty else .andList combined

/-- Modelled from the spec: `collection.find_one(query)` returns the
first matching document, or nothing. -/
def find_one (coll : List RunStart) (f : MongoFilter) : Option RunStart :=
  coll.find? (fun d => f.matches d)

/-- The lookup `Catalog.__getitem__(key)` up to `_build_run`: look the key up within
the gated search results of this Catalog; raise KeyError (NotFound) when
no run matches. -/
def Catalog.lookup (c : Catalog) (coll : List RunStart) (key : String) :
    Except CatalogError RunStart :=
  match find_one coll (c.effective_mongo_query [.uidEq key]) with
  | none => .error (.keyError key)
  | some d => .ok d

/-- The iterator `Catalog.__iter__`: drain `_chunked_find` over the `run_start`
collection with the gated query, yielding each document's uid. -/
def Catalog.iterate (c : Catalog) (coll : List (Doc RunStart)) : List String :=
  (_chunked_find coll
    (fun d => (c.effective_mongo_query []).matches d.payload) 0 none).map
    RunStart.uid

/-- The count `Catalog.__len__`: `count_documents` with the gated query. -/
def Catalog.length (c : Catalog) (coll : List (Doc RunStart)) : Nat :=
  count_documents coll (fun d => (c.effective_mongo_query []).matches d.payload)

/-- The operation `search` always succeeds (the compatibility re-check in the
constructor cannot fail) and produces the same Catalog with the query
appended. -/
theorem search_ok (c : Catalog) (q : Query) :
    c.search q = .ok
      { metadatastore_db := c.metadatastore_db
        asset_registry_db := c.asset_registry_db
        metadata := c.metadata
        queries := c.queries ++ [q]
        access_policy := c.access_policy
        authenticated_identity := c.authenticated_identity } := by
  unfold Catalog.search Catalog.make
  cases c.access_policy <;> simp [AccessPolicy.check_compatibility]

/-- The filter `_mongo_query` evaluates as the conjunction of its combined
predicate list. -/
theorem mongo_query_matches (c : Catalog) (extra : List MongoPred)
    (d : RunStart) :
    (c._mongo_query extra).matches d =
      (c.mongo_queries ++ extra).all (fun p => p.matches d) := by
  unfold Catalog._mongo_query
  by_cases h : (c.mongo_queries ++ extra).isEmpty
  · rw [if_pos h]
    rw [List.isEmpty_iff] at h
    rw [h]
    rfl
  · rw [if_neg h]
    rfl

/-- C5: `search(q)` returns a new Catalog whose active intent list is the
original list with `q` appended, sharing the same store handles, metadata,
access policy, and authenticated identity.  In this pure embedding the
original Catalog value is, by construction, not mutated: the source builds
the new view by re-invoking the constructor on copied fields. -/
theorem search_appends_query (c : Catalog) (q : Query) :
    c.search q = .ok
      { metadatastore_db := c.metadatastore_db
        asset_registry_db := c.asset_registry_db
        metadata := c.metadata
        queries := c.queries ++ [q]
        access_policy := c.access_policy
        authenticated_identity := c.authenticated_identity } :=
  search_ok c q

/-- C4: chained searches combine their translated predicates by AND: the
effective store predicate of `search(q1).search(q2)` is the AND of the
original Catalog's predicates with those of `q1` and `q2`; a document
matching only `q1` is excluded; and when the combined predicate list is
empty, `_mongo_query` is the empty, match-everything predicate. -/
theorem search_combines_by_and (c c1 c2 : Catalog) (q1 q2 : Query)
    (d : RunStart)
    (h1 : c.search q1 = .ok c1) (h2 : c1.search q2 = .ok c2) :
    ((c2._mongo_query []).matches d =
      ((c._mongo_query []).matches d && (translateQuery q1).matches d &&
        (translateQuery q2).matches d)) ∧
    ((translateQuery q1).matches d = true →
      (translateQuery q2).matches d = false →
      (c2._mongo_query []).matches d = false) ∧
    (c.queries = [] →
      c._mongo_query [] = .empty ∧ MongoFilter.empty.matches d = true) := by
  rw [search_ok] at h1 h2
  have hc1 : c1 = _ := (Except.ok.injEq _ _).mp h1.symm
  subst hc1
  have hc2 : c2 = _ := (Except.ok.injEq _ _).mp h2.symm
  subst hc2
  refine ⟨?_, ?_, ?_⟩
  · rw [mongo_query_matches, mongo_query_matches]
    simp only [Catalog.mongo_queries]
    simp [List.all_append, Bool.and_assoc]
  · intro hq1 hq2
    rw [mongo_query_matches]
    simp only [Catalog.mongo_queries]
    simp [List.all_append, hq1, hq2]
  · intro hq
    constructor
    · unfold Catalog._mongo_query
      simp [Catalog.mongo_queries, hq]
    · rfl

/-- A fresh, unauthenticated Catalog with no access policy and no
stored queries. -/
def freshCatalog : Catalog :=
  { metadatastore_db := 0
    asset_registry_db := 0
    metadata := []
    queries := []
    access_policy := none
    authenticated_identity := none }

/-- A Catalog already bound to an identity. -/
def boundCatalog : Catalog :=
  { freshCatalog with authenticated_identity := some (.user "alice") }

/-- C2 (code bug): `authenticated_as` does raise when the Catalog's
identity is non-null (third conjunct), but on a null-identity Catalog it
ignores its `identity` argument entirely — the source passes
`authenticated_identity=self.authenticated_identity` to the new Catalog —
so the returned Catalog is bound to no identity instead of the supplied
one. -/
theorem authenticated_as_ignores_identity :
    freshCatalog.authenticated_identity = none ∧
    freshCatalog.authenticated_as (.user "alice") = .ok freshCatalog ∧
    boundCatalog.authenticated_as (.user "bob") =
      .error CatalogError.alreadyAuthenticated :=
  ⟨rfl, rfl, rfl⟩

/-- C3: for every Catalog (a fixed active intent list) and every
ascending-id document set, `__len__` returns exactly the number of keys
obtained by exhaustively draining `__iter__`. -/
theorem length_eq_iterate_length (c : Catalog) (coll : List (Doc RunStart))
    (hs : coll.Pairwise (fun a b => a.id < b.id)) :
    c.length coll = (c.iterate coll).length := by
  unfold Catalog.length Catalog.iterate count_documents
  rw [chunked_find_eq _ _ 0 none hs]
  simp

/-- Witness for C3: a three-document collection with ascending ids. -/
theorem length_eq_iterate_length_witness :
    (([⟨1, ⟨"a", []⟩⟩, ⟨2, ⟨"b", []⟩⟩, ⟨4, ⟨"c", []⟩⟩] :
        List (Doc RunStart)).Pairwise (fun a b => a.id < b.id)) ∧
    freshCatalog.length [⟨1, ⟨"a", []⟩⟩, ⟨2, ⟨"b", []⟩⟩, ⟨4, ⟨"c", []⟩⟩] =
      (freshCatalog.iterate
        [⟨1, ⟨"a", []⟩⟩, ⟨2, ⟨"b", []⟩⟩, ⟨4, ⟨"c", []⟩⟩]).length :=
  ⟨by decide, length_eq_iterate_length freshCatalog _ (by decide)⟩

/-- The Catalog produced by searching `freshCatalog` for uid "A". -/
def catA : Catalog :=
  { freshCatalog with queries := [.rawMongo (.uidEq "A")] }

/-- The Catalog produced by a further search for uid "B". -/
def catAB : Catalog :=
  { freshCatalog with
      queries := [.rawMongo (.uidEq "A"), .rawMongo (.uidEq "B")] }

/-- Witness for C4: a document with uid "A" matches `q1` only and is
excluded by the chained search. -/
theorem search_combines_by_and_witness :
    freshCatalog.search (.rawMongo (.uidEq "A")) = .ok catA ∧
    catA.search (.rawMongo (.uidEq "B")) = .ok catAB ∧
    (catAB._mongo_query []).matches ⟨"A", []⟩ = false :=
  ⟨rfl, rfl,
   (search_combines_by_and freshCatalog catA catAB (.rawMongo (.uidEq "A"))
      (.rawMongo (.uidEq "B")) ⟨"A", []⟩ rfl rfl).2.1 (by decide) (by decide)⟩

/-- Witness for C2-adjacent general fact is not needed (the theorem is
closed); witness for C5 is not needed (no hypotheses).  The following is
the allow-listed Catalog used by C8. -/
def aliceCatalog : Catalog :=
  { freshCatalog with
      access_policy := some (.simple [("alice", .uids ["A", "B"])])
      authenticated_identity := some (.user "alice") }

/-- C8: `SimpleAccessPolicy.modify_queries` returns the intents unchanged
for the administrative identity or an `ALL` allow-list; otherwise it
appends one intent restricting results to the identity's allowed uid set,
the empty set when the identity is not in the mapping.  Consequently,
under identity "alice" allowed A and B, looking up "C" raises KeyError
(NotFound) even though a document with uid "C" is in the store. -/
theorem modify_queries_restricts (lists : List (String × AccessList))
    (qs : List Query) (ident : Option Identity) :
    (AccessPolicy.modify_queries (.simple lists) qs (some .admin) = qs) ∧
    (lookupAccess lists ident = .all →
      AccessPolicy.modify_queries (.simple lists) qs ident = qs) ∧
    (∀ us, lookupAccess lists ident = .uids us → ident ≠ some .admin →
      AccessPolicy.modify_queries (.simple lists) qs ident =
        qs ++ [.rawMongo (.uidIn us)]) ∧
    (aliceCatalog.lookup [⟨"C", []⟩] "C" = .error (.keyError "C")) := by
  refine ⟨?_, ?_, ?_, ?_⟩
  · simp [AccessPolicy.modify_queries, lookupAccess]
  · intro h
    simp [AccessPolicy.modify_queries, h]
  · intro us h hne
    simp [AccessPolicy.modify_queries, h, hne]
  · rfl

/-- Witness for C8: an identity absent from the mapping gets the empty
allowed set appended. -/
theorem modify_queries_restricts_witness :
    lookupAccess [("alice", AccessList.uids ["A", "B"])]
      (some (.user "bob")) = .uids [] ∧
    AccessPolicy.modify_queries (.simple [("alice", .uids ["A", "B"])]) []
      (some (.user "bob")) = [.rawMongo (.uidIn [])] :=
  ⟨by decide,
   (modify_queries_restricts [("alice", .uids ["A", "B"])] []
      (some (.user "bob"))).2.2.1 [] (by decide) (by decide)⟩

/-! ### Run / EventStream construction -/

/-- An `event_descriptor` document: its run, stream name, uid, and the
field names it declares. -/
structure DescriptorDoc where
  run_start : String
  name : String
  uid : String
  data_keys : List String
  deriving Repr, DecidableEq

/-- An `event` document: the uid of the descriptor it references and its
sequence number. -/
structure EventDoc where
  descriptor : String
  seq_num : Nat
  deriving Repr, DecidableEq

inductive StreamError where
  | emptyStream
  | aggregationUnpack
  deriving Repr, DecidableEq

/-- Modelled from the spec: the store's evaluation of the
`$match` / `$group` aggregation issued by `_build_event_stream`.  The
`$group` key is the constant string "descriptor", so all matched events
fall into a single group whose `highest_seq_num` is the overall maximum
`seq_num`; when no event matches, the store emits no group at all. -/
def aggregate_highest_seq_num (events : List EventDoc)
    (descriptor_uids : List String) : List Nat :=
  match events.filter (fun e => descriptor_uids.contains e.descriptor) with
  | [] => []
  | e :: rest => [rest.foldl (fun acc e' => max acc e'.seq_num) e.seq_num]

/-- The event stream snapshot assembled by `BlueskyEventStream.construct`:
the stream name and descriptors are stored as metadata, and the
`cutoff_seq_num` argument is recorded so that the value computed by
`_build_event_stream` and threaded into the construction is observable. -/
structure EventStream where
  stream_name : String
  cutoff_seq_num : Nat
  descriptors : List DescriptorDoc
  deriving Repr, DecidableEq

/-- The classmethod `BlueskyEventStream.construct`: raises ValueError ("At least one
Event Descriptor document is required.") when the descriptor sequence is
empty. -/
def EventStream.construct (run_start_uid : String) (cutoff_seq_num : Nat)
    (stream_name : String) (event_descriptors : List DescriptorDoc) :
    Except StreamError EventStream :=
  if event_descriptors.isEmpty then .error .emptyStream
  else
    .ok { stream_name := stream_name
          cutoff_seq_num := cutoff_seq_num
          descriptors := event_descriptors }

/-- The builder `Catalog._build_event_stream`: find the stream descriptors, compute
the aggregate maximum `seq_num` over events referencing any of them — the
destructuring `(result,) = list(...)` raises ValueError when the
aggregation returns no rows — and construct the EventStream. -/
def _build_event_stream (descriptor_coll : List DescriptorDoc)
    (event_coll : List EventDoc) (run_start_uid stream_name : String) :
    Except StreamError EventStream :=
  let event_descriptors := descriptor_coll.filter
    (fun d => d.run_start == run_start_uid && d.name == stream_name)
  let event_descriptor_uids := event_descriptors.map DescriptorDoc.uid
  match aggregate_highest_seq_num event_coll event_descriptor_uids with
  | [cutoff_seq_num] =>
      EventStream.construct run_start_uid cutoff_seq_num stream_name
        event_descriptors
  | _ => .error .aggregationUnpack

/-- A left fold with `max` stays above its seed, dominates the list, and
is the seed or an element. -/
theorem foldl_max_spec (l : List Nat) :
    ∀ a : Nat, (l.foldl max a = a ∨ l.foldl max a ∈ l) ∧
      a ≤ l.foldl max a ∧ ∀ x ∈ l, x ≤ l.foldl max a := by
  induction l with
  | nil =>
    intro a
    exact ⟨Or.inl rfl, Nat.le_refl a, by intro x hx; cases hx⟩
  | cons b t ih =>
    intro a
    rcases ih (max a b) with ⟨hmem, hle, hall⟩
    rw [List.foldl_cons]
    refine ⟨?_, ?_, ?_⟩
    · rcases hmem with h | h
      · rcases max_choice a b with hab | hab
        · exact Or.inl (h.trans hab)
        · exact Or.inr (by rw [h, hab]; exact List.mem_cons_self b t)
      · exact Or.inr (List.mem_cons_of_mem b h)
    · exact Nat.le_trans (Nat.le_max_left a b) hle
    · intro x hx
      rcases List.mem_cons.mp hx with hxb | hxt
      · rw [hxb]
        exact Nat.le_trans (Nat.le_max_right a b) hle
      · exact hall x hxt

/-- C6: whenever at least one Event document references one of the
stream's descriptor uids, `_build_event_stream` succeeds and the
`cutoff_seq_num` it computes and threads into the EventStream is the
maximum `seq_num` over exactly those Event documents. -/
theorem build_event_stream_cutoff_max (descriptor_coll : List DescriptorDoc)
    (event_coll : List EventDoc) (run_start_uid stream_name : String)
    (hne : event_coll.filter (fun e =>
        ((descriptor_coll.filter (fun d => d.run_start == run_start_uid &&
            d.name == stream_name)).map DescriptorDoc.uid).contains
          e.descriptor) ≠ []) :
    ∃ es, _build_event_stream descriptor_coll event_coll run_start_uid
        stream_name = .ok es ∧
      es.cutoff_seq_num ∈ (event_coll.filter (fun e =>
        ((descriptor_coll.filter (fun d => d.run_start == run_start_uid &&
            d.name == stream_name)).map DescriptorDoc.uid).contains
          e.descriptor)).map EventDoc.seq_num ∧
      ∀ s ∈ (event_coll.filter (fun e =>
        ((descriptor_coll.filter (fun d => d.run_start == run_start_uid &&
            d.name == stream_name)).map DescriptorDoc.uid).contains
          e.descriptor)).map EventDoc.seq_num, s ≤ es.cutoff_seq_num := by
  rcases hm : event_coll.filter (fun e =>
      ((descriptor_coll.filter (fun d => d.run_start == run_start_uid &&
          d.name == stream_name)).map DescriptorDoc.uid).contains
        e.descriptor) with _ | ⟨e, rest⟩
  · exact absurd hm hne
  · -- the stream has at least one descriptor, since `e` references one
    have hemem : e ∈ event_coll.filter (fun e =>
        ((descriptor_coll.filter (fun d => d.run_start == run_start_uid &&
            d.name == stream_name)).map DescriptorDoc.uid).contains
          e.descriptor) := by
      rw [hm]; exact List.mem_cons_self e rest
    have hcontains := (List.mem_filter.mp hemem).2
    have hdesc_ne : descriptor_coll.filter (fun d =>
        d.run_start == run_start_uid && d.name == stream_name) ≠ [] := by
      intro hnil
      rw [hnil] at hcontains
      simp at hcontains
    have hfold := foldl_max_spec (rest.map EventDoc.seq_num) e.seq_num
    rw [List.foldl_map] at hfold
    rcases hfold with ⟨hfmem, hfle, hfall⟩
    refine ⟨{ stream_name := stream_name
              cutoff_seq_num := rest.foldl (fun acc e' => max acc e'.seq_num) e.seq_num
              descriptors := descriptor_coll.filter (fun d =>
                d.run_start == run_start_uid && d.name == stream_name) }, ?_, ?_, ?_⟩
    · unfold _build_event_stream aggregate_highest_seq_num
      dsimp only
      rw [hm]
      dsimp only
      unfold EventStream.construct
      rw [if_neg (by simpa [List.isEmpty_iff] using hdesc_ne)]
    · dsimp only
      rw [hm, List.map_cons]
      rcases hfmem with h | h
      · rw [h]
        exact List.mem_cons_self _ _
      · exact List.mem_cons_of_mem _ h
    · intro s hs
      dsimp only at hs ⊢
      rw [hm, List.map_cons] at hs
      rcases List.mem_cons.mp hs with hse | hsr
      · rw [hse]
        exact hfle
      · exact hfall s hsr

/-- Two descriptors for stream "primary" and one for another stream. -/
def demoDescriptors : List DescriptorDoc :=
  [⟨"r1", "primary", "d1", ["f"]⟩, ⟨"r1", "primary", "d2", ["f"]⟩,
    ⟨"r1", "baseline", "dx", ["f"]⟩]

/-- Events whose maximum `seq_num` is 17 under descriptor d1 and 42 under
descriptor d2, plus an event of an unrelated descriptor. -/
def demoEvents : List EventDoc :=
  [⟨"d1", 5⟩, ⟨"d1", 17⟩, ⟨"d2", 42⟩, ⟨"d2", 41⟩, ⟨"dx", 99⟩]

/-- Witness for C6: two descriptors for stream "primary" whose events
have maximum `seq_num` values 17 and 42; the computed cutoff is 42. -/
theorem build_event_stream_cutoff_max_witness :
    demoEvents.filter (fun e =>
      ((demoDescriptors.filter (fun d => d.run_start == "r1" &&
          d.name == "primary")).map DescriptorDoc.uid).contains
        e.descriptor) ≠ [] ∧
    _build_event_stream demoDescriptors demoEvents "r1" "primary" =
      .ok { stream_name := "primary"
            cutoff_seq_num := 42
            descriptors := [⟨"r1", "primary", "d1", ["f"]⟩,
              ⟨"r1", "primary", "d2", ["f"]⟩] } ∧
    (∃ es, _build_event_stream demoDescriptors demoEvents "r1" "primary" =
        .ok es ∧
      es.cutoff_seq_num ∈ (demoEvents.filter (fun e =>
        ((demoDescriptors.filter (fun d => d.run_start == "r1" &&
            d.name == "primary")).map DescriptorDoc.uid).contains
          e.descriptor)).map EventDoc.seq_num ∧
      ∀ s ∈ (demoEvents.filter (fun e =>
        ((demoDescriptors.filter (fun d => d.run_start == "r1" &&
            d.name == "primary")).map DescriptorDoc.uid).contains
          e.descriptor)).map EventDoc.seq_num, s ≤ es.cutoff_seq_num) :=
  ⟨by decide, by rfl,
   build_event_stream_cutoff_max demoDescriptors demoEvents "r1" "primary"
     (by decide)⟩

/-- C7: EventStream construction with zero descriptors fails and no
EventStream value is produced: `construct` on an empty descriptor
sequence raises the EmptyStream ValueError, and `_build_event_stream`
with zero descriptors found for the `(uid, stream_name)` pair raises (its
singleton destructuring of the empty aggregation result fails) before any
EventStream value exists. -/
theorem event_stream_requires_descriptors :
    (∀ (run_start_uid : String) (cutoff_seq_num : Nat) (stream_name : String),
      EventStream.construct run_start_uid cutoff_seq_num stream_name [] =
        .error .emptyStream) ∧
    (∀ (descriptor_coll : List DescriptorDoc) (event_coll : List EventDoc)
        (run_start_uid stream_name : String),
      descriptor_coll.filter (fun d => d.run_start == run_start_uid &&
        d.name == stream_name) = [] →
      _build_event_stream descriptor_coll event_coll run_start_uid
        stream_name = .error .aggregationUnpack) := by
  constructor
  · intro _ _ _
    rfl
  · intro dc ec uid name h
    unfold _build_event_stream aggregate_highest_seq_num
    dsimp only
    rw [h]
    simp

/-- Witness for C7: zero descriptors, directly and via
`_build_event_stream`. -/
theorem event_stream_requires_descriptors_witness :
    EventStream.construct "r1" 0 "primary" [] =
      .error StreamError.emptyStream ∧
    _build_event_stream [⟨"other", "primary", "d9", []⟩] [⟨"d9", 3⟩]
      "r1" "primary" = .error StreamError.aggregationUnpack :=
  ⟨event_stream_requires_descriptors.1 "r1" 0 "primary",
   event_stream_requires_descriptors.2 _ _ "r1" "primary" (by decide)⟩

/-! ### Block tasks of `_build_dataset` -/

/-- The enumeration `itertools.product(*iterables)`: all index tuples, rightmost axis
varying fastest. -/
def cartesianProduct : List (List Nat) → List (List Nat)
  | [] => [[]]
  | axis :: rest =>
      axis.flatMap (fun i => (cartesianProduct rest).map (fun t => i :: t))

/-- The block index tuples `_build_dataset` builds one dask task for:
`num_blocks = (range(len(n)) for n in chunks)` and one task-dictionary
key per element of `itertools.product(*num_blocks)`. -/
def blockIndices (chunks : List (List Nat)) : List (List Nat) :=
  cartesianProduct (chunks.map (fun axis => List.range axis.length))

/-- A flatMap whose pieces all have length `c` has length
`axis.length * c`. -/
theorem flatMap_const_length {β γ : Type} (axis : List β) (g : β → List γ)
    (c : Nat) (h : ∀ b, (g b).length = c) :
    (axis.flatMap g).length = axis.length * c := by
  induction axis with
  | nil => simp
  | cons b t ih =>
    rw [List.flatMap_cons, List.length_append, ih, h b, List.length_cons,
      Nat.succ_mul]
    omega

/-- The Cartesian product has as many tuples as the product of the axis
lengths. -/
theorem cartesianProduct_length (ls : List (List Nat)) :
    (cartesianProduct ls).length = (ls.map List.length).prod := by
  induction ls with
  | nil => rfl
  | cons axis rest ih =>
    rw [cartesianProduct, flatMap_const_length axis _ (cartesianProduct rest).length
      (fun b => List.length_map _ _), ih, List.map_cons, List.prod_cons]

/-- Membership in the Cartesian product is componentwise membership. -/
theorem mem_cartesianProduct (ls : List (List Nat)) :
    ∀ b : List Nat, b ∈ cartesianProduct ls ↔
      List.Forall₂ (fun i axis => i ∈ axis) b ls := by
  induction ls with
  | nil =>
    intro b
    constructor
    · intro hb
      rcases List.mem_singleton.mp hb with rfl
      exact List.Forall₂.nil
    · intro hb
      rcases List.forall₂_nil_right_iff.mp hb with rfl
      exact List.mem_singleton.mpr rfl
  | cons axis rest ih =>
    intro b
    rw [cartesianProduct, List.mem_flatMap]
    constructor
    · rintro ⟨i, hi, hb⟩
      rcases List.mem_map.mp hb with ⟨t, ht, rfl⟩
      exact List.Forall₂.cons hi ((ih t).mp ht)
    · intro hb
      cases hb with
      | cons hi ht =>
        exact ⟨_, hi, List.mem_map.mpr ⟨_, (ih _).mpr ht, rfl⟩⟩

/-- The Cartesian product of duplicate-free axes is duplicate-free. -/
theorem cartesianProduct_nodup (ls : List (List Nat))
    (h : ∀ axis ∈ ls, axis.Nodup) : (cartesianProduct ls).Nodup := by
  induction ls with
  | nil => simp [cartesianProduct]
  | cons axis rest ih =>
    rw [cartesianProduct, List.nodup_flatMap]
    constructor
    · intro i _
      exact (ih (fun a ha => h a (List.mem_cons_of_mem _ ha))).map
        (fun t t' hteq => by injection hteq)
    · have haxis : axis.Nodup := h axis (List.mem_cons_self _ _)
      refine haxis.imp ?_
      intro i j hij
      rw [Function.onFun, List.disjoint_left]
      rintro b hb hb'
      rcases List.mem_map.mp hb with ⟨t, _, rfl⟩
      rcases List.mem_map.mp hb' with ⟨t', _, hcons⟩
      exact hij (by injection hcons.symm)

/-- C9: `_build_dataset` builds exactly one block task per block index
tuple: the key set is exactly the Cartesian product of the per-axis block
index ranges, no tuple is repeated, and the total task count is the
product of the per-axis chunk counts; in particular, per-axis chunks
((2,2),(2,2)) — shape (4,4) — give exactly 4 blocks. -/
theorem block_tasks_spec (chunks : List (List Nat)) :
    (blockIndices chunks).length = (chunks.map List.length).prod ∧
    (∀ b : List Nat, b ∈ blockIndices chunks ↔
      List.Forall₂ (fun i axis => i < axis.length) b chunks) ∧
    (blockIndices chunks).Nodup ∧
    (blockIndices [[2, 2], [2, 2]]).length = 4 := by
  refine ⟨?_, ?_, ?_, by decide⟩
  · rw [blockIndices, cartesianProduct_length, List.map_map]
    rw [List.map_congr_left (g := List.length) (by intro axis _; simp)]
  · intro b
    rw [blockIndices, mem_cartesianProduct, List.forall₂_map_right_iff]
    constructor
    · intro hb
      exact hb.imp (fun i axis hi => List.mem_range.mp hi)
    · intro hb
      exact hb.imp (fun i axis hi => List.mem_range.mpr hi)
  · exact cartesianProduct_nodup _ (by
      intro axis haxis
      rcases List.mem_map.mp haxis with ⟨a, _, rfl⟩
      exact List.nodup_range _)

/-- Witness for C9: the 2-by-2 block grid of shape (4,4) with chunks
((2,2),(2,2)). -/
theorem block_tasks_spec_witness :
    (blockIndices [[2, 2], [2, 2]]).length = 4 ∧
    [1, 0] ∈ blockIndices [[2, 2], [2, 2]] :=
  ⟨(block_tasks_spec [[2, 2], [2, 2]]).2.2.2,
   ((block_tasks_spec [[2, 2], [2, 2]]).2.1 [1, 0]).mpr (by decide)⟩

/-! ### BaseClient (tiled/client/base.py) -/

/-- The `path` argument of `BaseClient.__init__`: a string, a sequence of
segments, or None. -/
inductive PathArg where
  | str (s : String)
  | segments (xs : List String)
  | nonePath
  deriving Repr, DecidableEq

/-- The `item` argument: the NEEDS_INITIALIZATION sentinel or a payload. -/
inductive ItemArg where
  | needsInitialization
  | item (v : Nat)
  deriving Repr, DecidableEq

/-- The state `BaseClient.__init__` stores. -/
structure BaseClient where
  client : Nat
  path : List String
  item : Option Nat
  metadata : List (String × Nat)
  cached_len : Option Nat
  params : List (String × Nat)
  deriving Repr, DecidableEq

inductive ClientError where
  | pathMustBeSegments
  deriving Repr, DecidableEq

/-- The conversion `tuple(path or [])` on a non-string path argument. -/
def pathOrEmpty : PathArg → List String
  | .segments xs => xs
  | _ => []

/-- The constructor `BaseClient.__init__`: rejects a string `path` with ValueError
("path is expected to be a list of segments"); otherwise stashes an
immutable tuple copy of the path, initializes item and metadata according
to the NEEDS_INITIALIZATION sentinel, and defaults `params`. -/
def BaseClient.init (client : Nat) (item : ItemArg) (path : PathArg)
    (metadata : List (String × Nat))
    (params : Option (List (String × Nat))) : Except ClientError BaseClient :=
  match path with
  | .str _ => .error .pathMustBeSegments
  | p =>
      match item with
      | .needsInitialization =>
          .ok { client := client
                path := pathOrEmpty p
                item := none
                metadata := []
                cached_len := none
                params := params.getD [] }
      | .item v =>
          .ok { client := client
                path := pathOrEmpty p
                item := some v
                metadata := metadata
                cached_len := none
                params := params.getD [] }

/-- C10: constructing a BaseClient with a string `path` raises ValueError
and produces no instance; every accepted segment-sequence path is stored
as an (immutable, in this embedding pure) tuple of exactly the given
segments. -/
theorem base_client_path_validation (client : Nat) (item : ItemArg)
    (metadata : List (String × Nat))
    (params : Option (List (String × Nat))) :
    (∀ s, BaseClient.init client item (.str s) metadata params =
      .error .pathMustBeSegments) ∧
    (∀ xs, ∃ bc, BaseClient.init client item (.segments xs) metadata params =
      .ok bc ∧ bc.path = xs) := by
  constructor
  · intro s
    cases item <;> rfl
  · intro xs
    cases item <;> exact ⟨_, rfl, rfl⟩

end Tiled
